import Mathlib

/-!
Verification of the http-import esbuild plugin
(`src/httpImportEsbuildPlugin.ts`).

The development shallowly embeds the plugin's pure logic:

* the loader-inference functions `loaderFromPathname` and
  `loaderFromContentType` (JS strings are modelled as `List Char`,
  with `jsSplit`, `lastIndexOf`, `slice`/`drop`, `trim` and
  `toLowerCase` embedded explicitly);
* a WHATWG-style model of `new URL(ref, base)` restricted to
  hierarchical `http(s)` URLs (parsing, merge, dot-segment removal,
  serialisation), used by the namespaced resolve hook;
* the two `onResolve` callbacks and the `onLoad` callback.  The
  `onLoad` body is embedded as a pure function from a fetch outcome
  (response / network error / timeout) to a trace of effects
  (logging, timer set/clear, abort, ledger record), a result
  (`Except`), and the redirect-ledger update it performs.  The
  transport is modelled atomically: a `ResponseModel` carries status,
  final URL, content-type header and full body bytes.
-/

namespace HttpImport

/-- The esbuild loader identifiers that the plugin can produce. -/
inductive Loader where
  | js
  | ts
  | jsx
  | tsx
  | json
  | css
  | text
deriving DecidableEq, Repr

/-! ### JS string primitives on `List Char` -/

/-- JS `String.prototype.split` with a single-character separator,
on char lists.  `jsSplit sep l` is never empty; splitting the empty
string yields `[[]]`, as in JS. -/
def jsSplit (sep : Char) : List Char → List (List Char)
  | [] => [[]]
  | c :: rest =>
    let r := jsSplit sep rest
    if c = sep then [] :: r
    else (c :: r.headD []) :: r.tail

/-- JS `String.prototype.lastIndexOf` for a single character, on char
lists; `none` models JS's `-1` (character absent). -/
def lastIndexOf (c : Char) : List Char → Option Nat
  | [] => none
  | x :: xs =>
    match lastIndexOf c xs with
    | some i => some (i + 1)
    | none => if x = c then some 0 else none

/-- JS `String.prototype.toLowerCase` (ASCII-adequate), on char lists. -/
def jsLower (l : List Char) : List Char :=
  l.map Char.toLower

/-- JS `String.prototype.trim` (ASCII-adequate), on char lists. -/
def jsTrim (l : List Char) : List Char :=
  ((l.dropWhile Char.isWhitespace).reverse.dropWhile Char.isWhitespace).reverse

/-- Association-list lookup for the fixed loader tables. -/
def tableLookup : List (List Char × Loader) → List Char → Option Loader
  | [], _ => none
  | (k, v) :: rest, e => if e = k then some v else tableLookup rest e

/-! ### Extension-based loader inference (`loaderFromPathname`) -/

/-- The `EXT_TO_LOADER` record of the source, as a fixed table. -/
def extToLoaderTable : List (List Char × Loader) :=
  [ ("js".data, .js), ("mjs".data, .js), ("cjs".data, .js),
    ("ts".data, .ts), ("mts".data, .ts), ("cts".data, .ts),
    ("jsx".data, .jsx), ("tsx".data, .tsx),
    ("json".data, .json), ("css".data, .css), ("txt".data, .text) ]

/-- Source `loaderFromPathname`, on the pathname's chars:
`const last = pathname.split("/").pop() ?? ""`,
`const dot = last.lastIndexOf(".")`, `if (dot <= 0) return undefined`,
`const ext = last.slice(dot + 1).toLowerCase()`,
`return EXT_TO_LOADER[ext]`. -/
def loaderFromPathnameL (pathname : List Char) : Option Loader :=
  let last := (jsSplit '/' pathname).getLastD []
  match lastIndexOf '.' last with
  | none => none
  | some 0 => none
  | some d => tableLookup extToLoaderTable (jsLower (last.drop (d + 1)))

/-- Source `loaderFromPathname` on strings. -/
def loaderFromPathname (pathname : String) : Option Loader :=
  loaderFromPathnameL pathname.data

/-- Spec-worded extension inference: take the last path segment
(the characters after the last `/`), check that a dot occurs at a
position other than 0 of the segment, take the substring after the
last dot, lower-case it, and look it up in the fixed table. -/
def loaderFromPathnameSpecL (pathname : List Char) : Option Loader :=
  let seg := (pathname.reverse.takeWhile (· != '/')).reverse
  if '.' ∈ seg.drop 1 then
    tableLookup extToLoaderTable (jsLower ((seg.reverse.takeWhile (· != '.')).reverse))
  else
    none

/-! ### Content-type-based loader inference (`loaderFromContentType`) -/

/-- Source `loaderFromContentType` body after the null check, on the
header's chars: `const t = contentType.split(';')[0].trim().toLowerCase()`
followed by the `switch` (each pair of fall-through cases becomes one
sequential comparison chain in source order). -/
def loaderFromContentTypeL (contentType : List Char) : Option Loader :=
  let t := jsLower (jsTrim ((jsSplit ';' contentType).headD []))
  if t = "application/javascript".data then some .js
  else if t = "text/javascript".data then some .js
  else if t = "application/typescript".data then some .ts
  else if t = "text/typescript".data then some .ts
  else if t = "application/json".data then some .json
  else if t = "text/json".data then some .json
  else if t = "text/css".data then some .css
  else if t = "text/plain".data then some .text
  else none

/-- Source `loaderFromContentType`: `null` maps to `none`. -/
def loaderFromContentType (contentType : Option String) : Option Loader :=
  match contentType with
  | none => none
  | some ct => loaderFromContentTypeL ct.data

/-- The content-type → loader table of the spec, as a fixed table. -/
def contentTypeTable : List (List Char × Loader) :=
  [ ("application/javascript".data, .js), ("text/javascript".data, .js),
    ("application/typescript".data, .ts), ("text/typescript".data, .ts),
    ("application/json".data, .json), ("text/json".data, .json),
    ("text/css".data, .css), ("text/plain".data, .text) ]

/-- Spec-worded content-type inference: strip parameters (the text
after the first `;`), trim and lower-case the media type, and map it
through the fixed table; absent headers yield nothing. -/
def loaderFromContentTypeSpec (contentType : Option String) : Option Loader :=
  match contentType with
  | none => none
  | some ct =>
    tableLookup contentTypeTable
      (jsLower (jsTrim (ct.data.takeWhile (· != ';'))))

/-! ### WHATWG-style URL model

Modelled from the spec: the plugin delegates to the host platform's
`new URL(ref, base)` (not part of this repository) for
"standard URL-relative-reference resolution (supports `./`, `../`,
absolute-path-on-same-origin, and bare absolute URLs)".  The model
below covers hierarchical `http(s)` URLs: scheme, authority
(lower-cased, as WHATWG lower-cases hosts), path segments with
dot-segment normalisation, query and fragment. -/

/-- A parsed hierarchical http(s) URL. -/
structure Url where
  scheme : List Char
  authority : List Char
  segments : List (List Char)
  query : Option (List Char)
  fragment : Option (List Char)
deriving DecidableEq, Repr

/-- Does `l` start with the literal prefix `p`? -/
def startsWithL (p l : List Char) : Bool :=
  match p, l with
  | [], _ => true
  | _ :: _, [] => false
  | a :: ps, b :: ls => a = b && startsWithL ps ls

/-- Remove-dot-segments over a segment list (URL path normalisation):
`.` segments disappear, `..` segments pop the previous segment, and a
trailing `.`/`..` leaves a trailing empty segment (directory form). -/
def removeDotsAux : List (List Char) → List (List Char) → List (List Char)
  | acc, [] => acc.reverse
  | acc, s :: rest =>
    if s = ".".data then
      if rest = [] then ([] :: acc).reverse else removeDotsAux acc rest
    else if s = "..".data then
      if rest = [] then ([] :: acc.drop 1).reverse
      else removeDotsAux (acc.drop 1) rest
    else removeDotsAux (s :: acc) rest

/-- Dot-segment removal on a URL path given as segments. -/
def removeDotSegments (segs : List (List Char)) : List (List Char) :=
  removeDotsAux [] segs

/-- Split path-query-fragment chars into (path, query, fragment). -/
def splitPqf (l : List Char) : List Char × Option (List Char) × Option (List Char) :=
  let beforeHash := l.takeWhile (· != '#')
  let frag := if '#' ∈ l then some ((l.dropWhile (· != '#')).drop 1) else none
  let path := beforeHash.takeWhile (· != '?')
  let query :=
    if '?' ∈ beforeHash then some ((beforeHash.dropWhile (· != '?')).drop 1) else none
  (path, query, frag)

/-- Chars of a path (starting with `/`, or empty) as a segment list. -/
def pathSegments (path : List Char) : List (List Char) :=
  if path = [] then [] else jsSplit '/' (path.drop 1)

/-- Parse the part of an absolute URL following `scheme://`. -/
def parseAfterScheme (scheme rest : List Char) : Url :=
  let authority := rest.takeWhile (fun c => c != '/' && c != '?' && c != '#')
  let tail := rest.dropWhile (fun c => c != '/' && c != '?' && c != '#')
  let (path, query, frag) := splitPqf tail
  ⟨scheme, jsLower authority, removeDotSegments (pathSegments path), query, frag⟩

/-- Parse an absolute `http(s)` URL; `none` models the `URL`
constructor throwing on other inputs. -/
def parseAbsoluteL (l : List Char) : Option Url :=
  if startsWithL "http://".data l then
    some (parseAfterScheme "http".data (l.drop 7))
  else if startsWithL "https://".data l then
    some (parseAfterScheme "https".data (l.drop 8))
  else
    none

/-- Resolve a reference against a parsed base URL, in the style of
WHATWG `new URL(ref, base)` restricted to http(s) bases. -/
def resolveRef (ref : List Char) (base : Url) : Url :=
  match parseAbsoluteL ref with
  | some u => u
  | none =>
    if startsWithL "//".data ref then
      parseAfterScheme base.scheme (ref.drop 2)
    else
      let (path, query, frag) := splitPqf ref
      if path = [] then
        match query with
        | some q => ⟨base.scheme, base.authority, base.segments, some q, frag⟩
        | none =>
          match frag with
          | some f => ⟨base.scheme, base.authority, base.segments, base.query, some f⟩
          | none => ⟨base.scheme, base.authority, base.segments, base.query, none⟩
      else if startsWithL "/".data path then
        ⟨base.scheme, base.authority, removeDotSegments (pathSegments path), query, frag⟩
      else
        ⟨base.scheme, base.authority,
          removeDotSegments (base.segments.dropLast ++ jsSplit '/' path), query, frag⟩

/-- Serialise a URL, as WHATWG `URL.prototype.toString` does for
http(s) URLs (an empty path serialises as `/`). -/
def urlToString (u : Url) : String :=
  (u.scheme ++ "://".data ++ u.authority
    ++ "/".data ++ (u.segments.intersperse "/".data).flatten
    ++ (match u.query with | some q => "?".data ++ q | none => [])
    ++ (match u.fragment with | some f => "#".data ++ f | none => [])).asString

/-- `new URL(ref, base).toString()` on strings; `none` models the
constructor throwing (unparseable base). -/
def newUrl (ref base : String) : Option String :=
  (parseAbsoluteL base.data).map (fun b => urlToString (resolveRef ref.data b))

/-- `new URL(s).pathname` on strings, defaulting to the empty string
when `s` is not an absolute http(s) URL (paths reaching the plugin's
load hook are always absolute URLs produced by its resolve hooks). -/
def urlPathnameD (s : String) : String :=
  match parseAbsoluteL s.data with
  | some u => ("/".data ++ (u.segments.intersperse "/".data).flatten).asString
  | none => ""

/-! ### The plugin's hook callbacks -/

/-- The default namespace tag (`params?.namespace ?? '_http_url'`). -/
def defaultNs : String := "_http_url"

/-- What a resolve hook returns: `{ path, namespace }`. -/
structure ResolveResult where
  path : String
  ns : String
deriving DecidableEq, Repr

/-- First `onResolve` filter `/^https?:\/\//`: the import path starts
with `http://` or `https://`. -/
def matchesHttpFilter (path : String) : Bool :=
  startsWithL "http://".data path.data || startsWithL "https://".data path.data

/-- First `onResolve` callback (absolute http(s) entry or import):
returns the path unchanged, tagged with the namespace. -/
def onResolveHttp (ns path : String) : ResolveResult :=
  ⟨path, ns⟩

/-- Second `onResolve` callback (filter `/.*/` restricted to importers
in the namespace): `const base = pathToResolvedUrl.get(args.importer)
?? args.importer; return { path: new URL(args.path, base).toString(),
namespace }`.  The redirect ledger is passed as an association list;
`none` models the `URL` constructor throwing. -/
def onResolveNamespaced (ns : String) (ledger : List (String × String))
    (importer path : String) : Option ResolveResult :=
  let base := (ledger.lookup importer).getD importer
  (newUrl path base).map (fun p => ⟨p, ns⟩)

/-! ### The `onLoad` callback as a trace-producing function -/

/-- An effect performed by the load callback, in order. -/
inductive Event where
  | logged (msg : String)
  | timerSet
  | fetchStarted (url : String)
  | aborted
  | timerCleared
  | recorded (requested effective : String)
deriving DecidableEq, Repr

/-- The transport's answer, modelled atomically: a complete response
(status, final post-redirect URL — the empty string when the
transport does not expose one —, content-type header, body bytes). -/
structure ResponseModel where
  status : Nat
  url : String
  contentType : Option String
  body : List Nat
deriving DecidableEq, Repr

/-- `Response.ok`: status in the range 200–299. -/
def ResponseModel.ok (r : ResponseModel) : Bool :=
  decide (200 ≤ r.status) && decide (r.status ≤ 299)

/-- How one invocation of the load callback's awaited fetch ends. -/
inductive FetchOutcome where
  | response (res : ResponseModel)
  | networkError
  | timeout
deriving DecidableEq, Repr

/-- Why a load failed.  `aborted` is the `AbortError` cancellation
produced by the timeout's `abortController.abort()`; `network` is any
other fetch rejection; `httpStatus` is the `Error` thrown on a
non-ok status, carrying the thrown message. -/
inductive LoadError where
  | aborted
  | network
  | httpStatus (msg : String)
deriving DecidableEq, Repr

/-- What a successful load returns: `{ contents, loader }`. -/
structure LoadResult where
  contents : List Nat
  loader : Loader
deriving DecidableEq, Repr

/-- Plugin configuration after defaulting (`namespace ?? '_http_url'`,
`timeoutMs ?? 30000`); `hasOnLog` models whether `params?.onLog` was
provided, and `loaderResolver` the optional explicit loader override
(its `null`/`undefined` results are `none`). -/
structure PluginConfig where
  ns : String := "_http_url"
  timeoutMs : Nat := 30000
  hasOnLog : Bool := false
  loaderResolver : Option (String → ResponseModel → Option Loader) := none

/-- The loader-selection chain of the load callback, first non-empty
result winning: explicit override, extension inference, content-type
inference, default `js`. -/
def selectLoader (override : Option Loader) (pathname : String)
    (contentType : Option String) : Loader :=
  match override with
  | some l => l
  | none =>
    match loaderFromPathname pathname with
    | some l => l
    | none =>
      match loaderFromContentType contentType with
      | some l => l
      | none => .js

/-- Everything one invocation of the load callback produces: its
effect trace, its result, and the ledger entry it wrote (if any). -/
structure LoadOutput where
  trace : List Event
  result : Except LoadError LoadResult
  ledgerUpdate : Option (String × String)
deriving Repr

/-- The `onLoad` callback body, as a pure function of the fetch
outcome.  Faithful to the source's order of effects: optional log,
`setTimeout`, `fetch` inside `try`, `clearTimeout` in `finally`
(after an abort event when the timer fired), the `res.ok` check and
thrown message, the ledger write `pathToResolvedUrl.set(args.path,
res.url || args.path)`, body read, and loader selection. -/
def onLoad (cfg : PluginConfig) (path : String) (outcome : FetchOutcome) :
    LoadOutput :=
  let pre :=
    (if cfg.hasOnLog then [Event.logged ("Downloading: " ++ path)] else [])
      ++ [Event.timerSet, Event.fetchStarted path]
  match outcome with
  | .timeout =>
    ⟨pre ++ [.aborted, .timerCleared], .error .aborted, none⟩
  | .networkError =>
    ⟨pre ++ [.timerCleared], .error .network, none⟩
  | .response res =>
    if res.ok then
      let eff := if res.url = "" then path else res.url
      let override :=
        match cfg.loaderResolver with
        | some f => f path res
        | none => none
      let loader := selectLoader override (urlPathnameD path) res.contentType
      ⟨pre ++ [.timerCleared, .recorded path eff],
        .ok ⟨res.body, loader⟩, some (path, eff)⟩
    else
      ⟨pre ++ [.timerCleared],
        .error (.httpStatus
          ("GET " ++ path ++ " failed: status " ++ toString res.status)),
        none⟩

/-! ### Helper lemmas about `jsSplit`, `lastIndexOf` and `takeWhile` -/

theorem tw_all {p : Char → Bool} {l : List Char} (h : ∀ a ∈ l, p a = true) :
    l.takeWhile p = l := by
  induction l with
  | nil => rfl
  | cons x xs ih =>
    rw [List.takeWhile_cons_of_pos (h x (List.mem_cons_self x xs))]
    rw [ih (fun a ha => h a (List.mem_cons_of_mem x ha))]

theorem tw_append_last {p : Char → Bool} {y : Char} (hy : p y = false)
    (xs : List Char) : (xs ++ [y]).takeWhile p = xs.takeWhile p := by
  induction xs with
  | nil => simp [List.takeWhile_cons, hy]
  | cons x xs ih =>
    cases hx : p x with
    | true => simp [List.takeWhile_cons, hx, ih]
    | false => simp [List.takeWhile_cons, hx]

theorem tw_append_of_mem {p : Char → Bool} {a : Char} {xs : List Char}
    (ha : a ∈ xs) (hp : p a = false) (ys : List Char) :
    (xs ++ ys).takeWhile p = xs.takeWhile p := by
  induction xs with
  | nil => cases ha
  | cons x xs ih =>
    cases hx : p x with
    | false => simp [List.takeWhile_cons, hx]
    | true =>
      rcases List.mem_cons.mp ha with rfl | hmem
      · rw [hx] at hp; cases hp
      · simp [List.takeWhile_cons, hx, ih hmem]

theorem jsSplit_ne_nil (sep : Char) (l : List Char) : jsSplit sep l ≠ [] := by
  cases l with
  | nil => simp [jsSplit]
  | cons c rest =>
    simp only [jsSplit]
    split <;> simp

theorem jsSplit_headD (sep : Char) (l : List Char) :
    (jsSplit sep l).headD [] = l.takeWhile (· != sep) := by
  induction l with
  | nil => rfl
  | cons c rest ih =>
    by_cases hc : c = sep
    · have hb0 : ¬ ((c != sep) = true) := by simp [hc]
      have hr : jsSplit sep (c :: rest) = [] :: jsSplit sep rest := by
        simp [jsSplit, hc]
      rw [hr, List.headD_cons,
        @List.takeWhile_cons_of_neg Char (fun a => a != sep) c rest hb0]
    · have hb : (c != sep) = true := by simp [hc]
      have hr : jsSplit sep (c :: rest)
          = (c :: (jsSplit sep rest).headD []) :: (jsSplit sep rest).tail := by
        simp [jsSplit, hc]
      rw [hr, List.headD_cons, ih,
        @List.takeWhile_cons_of_pos Char (fun a => a != sep) c rest hb]

theorem jsSplit_of_not_mem {sep : Char} {l : List Char} (h : sep ∉ l) :
    jsSplit sep l = [l] := by
  induction l with
  | nil => rfl
  | cons c rest ih =>
    have hc : ¬ c = sep := fun he => h (he ▸ List.mem_cons_self c rest)
    have hrest : sep ∉ rest := fun hm => h (List.mem_cons_of_mem c hm)
    simp [jsSplit, hc, ih hrest]

theorem jsSplit_tail_ne_nil {sep : Char} {l : List Char} (h : sep ∈ l) :
    (jsSplit sep l).tail ≠ [] := by
  induction l with
  | nil => cases h
  | cons c rest ih =>
    simp only [jsSplit]
    by_cases hc : c = sep
    · simp [hc, jsSplit_ne_nil]
    · rcases List.mem_cons.mp h with he | hmem
      · exact absurd he.symm hc
      · simp [hc, ih hmem]

theorem getLastD_default_irrel {α : Type} {t : List α} (h : t ≠ []) (d1 d2 : α) :
    t.getLastD d1 = t.getLastD d2 := by
  cases t with
  | nil => cases h rfl
  | cons x xs => rw [List.getLastD_cons, List.getLastD_cons]

theorem jsSplit_getLastD (sep : Char) (l : List Char) :
    (jsSplit sep l).getLastD [] = (l.reverse.takeWhile (· != sep)).reverse := by
  induction l with
  | nil => rfl
  | cons c rest ih =>
    have hsep : (fun a => a != sep) sep = false := by simp
    by_cases hc : c = sep
    · have hr : jsSplit sep (c :: rest) = [] :: jsSplit sep rest := by
        simp [jsSplit, hc]
      rw [hr, List.getLastD_cons, ih, List.reverse_cons, hc,
        @tw_append_last (fun a => a != sep) sep hsep rest.reverse]
    · have hr : jsSplit sep (c :: rest)
          = (c :: (jsSplit sep rest).headD []) :: (jsSplit sep rest).tail := by
        simp [jsSplit, hc]
      by_cases hmem : sep ∈ rest
      · have htail := @jsSplit_tail_ne_nil sep rest hmem
        rw [hr, List.getLastD_cons]
        have hrw : ∀ d, ((jsSplit sep rest).tail).getLastD d
            = (jsSplit sep rest).getLastD [] := by
          intro d
          cases hq : jsSplit sep rest with
          | nil => exact absurd hq (jsSplit_ne_nil sep rest)
          | cons h1 t1 =>
            have ht1 : t1 ≠ [] := by
              have h2 := htail; rw [hq] at h2; simpa using h2
            simp only [List.tail_cons, List.getLastD_cons]
            exact getLastD_default_irrel ht1 d h1
        rw [hrw, ih, List.reverse_cons]
        rw [@tw_append_of_mem (fun a => a != sep) sep rest.reverse
          (List.mem_reverse.mpr hmem) hsep [c]]
      · have hr2 : jsSplit sep (c :: rest) = [c :: rest] := by
          rw [hr, jsSplit_of_not_mem hmem]
          rfl
        rw [hr2, List.getLastD_cons, List.getLastD_nil]
        have hall : ∀ a ∈ (c :: rest).reverse, (a != sep) = true := by
          intro a ha
          rcases List.mem_cons.mp (List.mem_reverse.mp ha) with rfl | hm
          · simp [hc]
          · have hne : ¬ a = sep := fun he => hmem (he ▸ hm)
            simp [hne]
        rw [tw_all hall, List.reverse_reverse]

theorem lastIndexOf_eq_none {c : Char} {l : List Char} :
    lastIndexOf c l = none ↔ c ∉ l := by
  induction l with
  | nil => simp [lastIndexOf]
  | cons x xs ih =>
    cases h : lastIndexOf c xs with
    | some i =>
      simp only [lastIndexOf, h]
      have : c ∈ xs := by
        by_contra hm
        rw [ih.mpr hm] at h; cases h
      simp [this]
    | none =>
      have hm : c ∉ xs := ih.mp h
      simp only [lastIndexOf, h]
      by_cases hx : x = c
      · simp [hx]
      · have : ¬ c = x := fun he => hx he.symm
        simp [hx, hm, this]

theorem lastIndexOf_zero {c : Char} {l : List Char}
    (h : lastIndexOf c l = some 0) : c ∉ l.drop 1 := by
  cases l with
  | nil => cases h
  | cons x xs =>
    simp only [lastIndexOf] at h
    cases hx : lastIndexOf c xs with
    | some i => rw [hx] at h; cases h
    | none =>
      simp only [List.drop_succ_cons, List.drop_zero]
      exact lastIndexOf_eq_none.mp hx

theorem lastIndexOf_succ_iff {c : Char} {l : List Char} :
    c ∈ l.drop 1 ↔ ∃ d, lastIndexOf c l = some (d + 1) := by
  cases l with
  | nil => simp [lastIndexOf]
  | cons x xs =>
    simp only [List.drop_succ_cons, List.drop_zero]
    constructor
    · intro hm
      cases hx : lastIndexOf c xs with
      | none => exact absurd hm (lastIndexOf_eq_none.mp hx)
      | some i =>
        refine ⟨i, ?_⟩
        simp [lastIndexOf, hx]
    · rintro ⟨d, hd⟩
      simp only [lastIndexOf] at hd
      cases hx : lastIndexOf c xs with
      | some i =>
        by_contra hm
        exact absurd (lastIndexOf_eq_none.mpr hm) (by simp [hx])
      | none =>
        rw [hx] at hd
        by_cases hxc : x = c
        · rw [if_pos hxc] at hd
          cases hd
        · rw [if_neg hxc] at hd
          cases hd

theorem lastIndexOf_drop {c : Char} {l : List Char} {d : Nat}
    (h : lastIndexOf c l = some d) :
    l.drop (d + 1) = (l.reverse.takeWhile (· != c)).reverse := by
  induction l generalizing d with
  | nil => cases h
  | cons x xs ih =>
    have hcc : (fun a => a != c) c = false := by simp
    simp only [lastIndexOf] at h
    cases hx : lastIndexOf c xs with
    | some i =>
      rw [hx] at h
      have hd : d = i + 1 := by
        injection h with h2
        omega
      subst hd
      have hmem : c ∈ xs := by
        by_contra hm
        rw [lastIndexOf_eq_none.mpr hm] at hx; cases hx
      simp only [List.drop_succ_cons]
      rw [ih hx, List.reverse_cons]
      rw [@tw_append_of_mem (fun a => a != c) c xs.reverse
        (List.mem_reverse.mpr hmem) hcc [x]]
    | none =>
      rw [hx] at h
      by_cases hxc : x = c
      · rw [if_pos hxc] at h
        have hd : d = 0 := by injection h with h2; omega
        subst hd
        have hmem : c ∉ xs := lastIndexOf_eq_none.mp hx
        simp only [List.drop_succ_cons, List.drop_zero, List.reverse_cons, hxc]
        rw [@tw_append_last (fun a => a != c) c hcc xs.reverse]
        have hall : ∀ a ∈ xs.reverse, (a != c) = true := by
          intro a ha
          have hne : ¬ a = c := fun he => hmem (he ▸ List.mem_reverse.mp ha)
          simp [hne]
        rw [tw_all hall, List.reverse_reverse]
      · rw [if_neg hxc] at h
        cases h

/-! ### Equivalence of the inference functions with their spec forms -/

theorem loaderFromPathnameL_eq_spec (l : List Char) :
    loaderFromPathnameL l = loaderFromPathnameSpecL l := by
  unfold loaderFromPathnameL loaderFromPathnameSpecL
  rw [jsSplit_getLastD]
  set seg := (l.reverse.takeWhile (· != '/')).reverse with hseg
  cases h : lastIndexOf '.' seg with
  | none =>
    have hm : '.' ∉ seg := lastIndexOf_eq_none.mp h
    have hnd : '.' ∉ seg.drop 1 := fun hmem => hm (List.mem_of_mem_drop hmem)
    rw [if_neg hnd]
    simp only [h]
  | some d =>
    cases d with
    | zero =>
      have hnd := lastIndexOf_zero h
      rw [if_neg hnd]
      simp only [h]
    | succ d =>
      have hmem : '.' ∈ seg.drop 1 := lastIndexOf_succ_iff.mpr ⟨d, h⟩
      have hdrop := lastIndexOf_drop h
      rw [if_pos hmem, ← hdrop]
      simp only [h]

theorem ctChain_eq_lookup (t : List Char) :
    (if t = "application/javascript".data then some Loader.js
      else if t = "text/javascript".data then some Loader.js
      else if t = "application/typescript".data then some Loader.ts
      else if t = "text/typescript".data then some Loader.ts
      else if t = "application/json".data then some Loader.json
      else if t = "text/json".data then some Loader.json
      else if t = "text/css".data then some Loader.css
      else if t = "text/plain".data then some Loader.text
      else none)
      = tableLookup contentTypeTable t := by
  simp only [tableLookup, contentTypeTable]

theorem loaderFromContentType_eq_spec (ct : Option String) :
    loaderFromContentType ct = loaderFromContentTypeSpec ct := by
  cases ct with
  | none => rfl
  | some s =>
    show loaderFromContentTypeL s.data
      = tableLookup contentTypeTable (jsLower (jsTrim (s.data.takeWhile (· != ';'))))
    unfold loaderFromContentTypeL
    rw [jsSplit_headD]
    exact ctChain_eq_lookup _

/-! ### Claim theorems -/

/-- Claim C1 (evaluation at the failing input): contrary to the claim,
the namespaced resolve hook does handle a bare specifier such as
`react` imported from a module in the namespace.  Its filter is
`/.*/`, so the callback runs and rewrites `react` imported from
`https://example.com/a.js` into `https://example.com/react`, tagged
with the namespace — which the load hook would then fetch.  The
repository's own test (`leaves bare imports inside http modules
untouched`) asserts the opposite behaviour. -/
theorem claim_C1_bare_specifier_is_rewritten :
    onResolveNamespaced defaultNs [] "https://example.com/a.js" "react"
      = some ⟨"https://example.com/react", "_http_url"⟩ := by decide

/-- Claim C2: inside the namespace, an import path R from an importer
with canonical path A resolves URL-relatively against A when the
redirect ledger has no entry for A, and against the ledger's target
when it does; in particular, with importer `https://cdn/pkg` recorded
as served from `https://cdn/pkg/index.js`, the import `./util.js`
resolves to `https://cdn/pkg/util.js`, not `https://cdn/util.js`. -/
theorem claim_C2_relative_resolution (ledger : List (String × String))
    (A Aeff R : String) :
    (ledger.lookup A = none →
      onResolveNamespaced defaultNs ledger A R
        = (newUrl R A).map (fun p => ⟨p, defaultNs⟩))
    ∧ (ledger.lookup A = some Aeff →
      onResolveNamespaced defaultNs ledger A R
        = (newUrl R Aeff).map (fun p => ⟨p, defaultNs⟩))
    ∧ onResolveNamespaced defaultNs
        [("https://cdn/pkg", "https://cdn/pkg/index.js")]
        "https://cdn/pkg" "./util.js"
        = some ⟨"https://cdn/pkg/util.js", defaultNs⟩
    ∧ newUrl "./util.js" "https://cdn/pkg" = some "https://cdn/util.js" := by
  refine ⟨fun h => ?_, fun h => ?_, by decide, by decide⟩
  · unfold onResolveNamespaced
    rw [h]
    rfl
  · unfold onResolveNamespaced
    rw [h]
    rfl

/-- Witness for C2 at concrete inputs. -/
theorem claim_C2_witness :
    onResolveNamespaced defaultNs [] "https://example.com/a.js" "./b.js"
      = (newUrl "./b.js" "https://example.com/a.js").map
        (fun p => ⟨p, defaultNs⟩)
    ∧ onResolveNamespaced defaultNs
        [("https://cdn/pkg", "https://cdn/pkg/index.js")]
        "https://cdn/pkg" "./util.js"
      = (newUrl "./util.js" "https://cdn/pkg/index.js").map
        (fun p => ⟨p, defaultNs⟩) :=
  ⟨(claim_C2_relative_resolution [] "https://example.com/a.js" "" "./b.js").1
      (by decide),
   (claim_C2_relative_resolution
      [("https://cdn/pkg", "https://cdn/pkg/index.js")]
      "https://cdn/pkg" "https://cdn/pkg/index.js" "./util.js").2.1
      (by decide)⟩

/-- Claim C3: the loader is chosen by the exact priority chain —
explicit resolver override, then extension inference, then
content-type inference, then the default `js` — the first non-empty
result winning; a `.ts` path served as `application/javascript`
yields `ts`, and an extensionless path with an unrecognized
content-type yields `js`.  Totality of `selectLoader` gives that
exactly one loader is always produced. -/
theorem claim_C3_loader_priority_chain (ov : Option Loader) (pn : String)
    (ct : Option String) :
    (∀ l, ov = some l → selectLoader ov pn ct = l)
    ∧ (ov = none → ∀ l, loaderFromPathname pn = some l →
        selectLoader ov pn ct = l)
    ∧ (ov = none → loaderFromPathname pn = none →
        ∀ l, loaderFromContentType ct = some l → selectLoader ov pn ct = l)
    ∧ (ov = none → loaderFromPathname pn = none →
        loaderFromContentType ct = none → selectLoader ov pn ct = .js)
    ∧ (onLoad {} "https://example.com/mod.ts"
        (.response ⟨200, "", some "application/javascript", []⟩)).result
        = .ok ⟨[], .ts⟩
    ∧ (onLoad {} "https://example.com/mod"
        (.response ⟨200, "", some "application/octet-stream", []⟩)).result
        = .ok ⟨[], .js⟩ := by
  refine ⟨fun l h => ?_, fun h l h2 => ?_, fun h h2 l h3 => ?_,
    fun h h2 h3 => ?_, by rfl, by rfl⟩
  · unfold selectLoader; rw [h]
  · unfold selectLoader; rw [h, h2]
  · unfold selectLoader; rw [h, h2, h3]
  · unfold selectLoader; rw [h, h2, h3]

/-- Witness for C3 at concrete inputs, one per chain stage. -/
theorem claim_C3_witness :
    selectLoader (some .css) "/x.ts" (some "text/plain") = .css
    ∧ selectLoader none "/x.ts" (some "text/plain") = .ts
    ∧ selectLoader none "/x" (some "text/plain") = .text
    ∧ selectLoader none "/x" (some "application/octet-stream") = .js :=
  ⟨(claim_C3_loader_priority_chain (some .css) "/x.ts" (some "text/plain")).1
      .css rfl,
   (claim_C3_loader_priority_chain none "/x.ts" (some "text/plain")).2.1
      rfl .ts (by decide),
   (claim_C3_loader_priority_chain none "/x" (some "text/plain")).2.2.1
      rfl (by decide) .text (by decide),
   (claim_C3_loader_priority_chain none "/x"
      (some "application/octet-stream")).2.2.2.1
      rfl (by decide) (by decide)⟩

/-- Claim C4: on a timeout the in-flight request is aborted and the
load fails with the `AbortError` cancellation (`LoadError.aborted`,
distinct from the content error `LoadError.httpStatus`), and on every
exit path — success, HTTP failure, network failure, timeout — the
`finally` block clears the timer exactly once, so no timer is left
pending. -/
theorem claim_C4_timeout_abort_and_timer_cleared (cfg : PluginConfig)
    (path : String) (outcome : FetchOutcome) :
    ((onLoad cfg path outcome).trace.count .timerCleared = 1)
    ∧ ((onLoad cfg path outcome).trace.count .timerSet = 1)
    ∧ (outcome = .timeout →
        (onLoad cfg path outcome).result = .error .aborted
        ∧ (onLoad cfg path outcome).trace.count .aborted = 1) := by
  cases outcome with
  | timeout =>
    cases hl : cfg.hasOnLog <;>
      simp [onLoad, hl, List.count_append, List.count_cons, List.count_nil]
  | networkError =>
    cases hl : cfg.hasOnLog <;>
      simp [onLoad, hl, List.count_append, List.count_cons, List.count_nil]
  | response res =>
    cases hok : res.ok <;> cases hl : cfg.hasOnLog <;>
      simp [onLoad, hl, hok, List.count_append, List.count_cons,
        List.count_nil]

/-- Witness for C4 at a concrete timeout. -/
theorem claim_C4_witness :
    (onLoad {} "https://example.com/a.js" .timeout).result = .error .aborted
    ∧ (onLoad {} "https://example.com/a.js" .timeout).trace.count
        .timerCleared = 1 :=
  ⟨((claim_C4_timeout_abort_and_timer_cleared {} "https://example.com/a.js"
      .timeout).2.2 rfl).1,
   (claim_C4_timeout_abort_and_timer_cleared {} "https://example.com/a.js"
      .timeout).1⟩

/-- Claim C5: a response whose status is not ok (not 2xx) makes the
load fail with an error message containing both the request path and
the numeric status code; exactly one fetch is issued (no retry) and
no ledger entry is written.  The thrown error rejects the load
callback, which is fatal for the build. -/
theorem claim_C5_http_failure (cfg : PluginConfig) (path : String)
    (res : ResponseModel) (h : res.ok = false) :
    (onLoad cfg path (.response res)).result
      = .error (.httpStatus
          ("GET " ++ path ++ " failed: status " ++ toString res.status))
    ∧ (∃ pre post,
        ("GET " ++ path ++ " failed: status " ++ toString res.status).data
          = pre ++ path.data ++ post)
    ∧ (∃ pre,
        ("GET " ++ path ++ " failed: status " ++ toString res.status).data
          = pre ++ (toString res.status).data)
    ∧ (onLoad cfg path (.response res)).trace.count (.fetchStarted path) = 1
    ∧ (onLoad cfg path (.response res)).ledgerUpdate = none := by
  refine ⟨?_, ?_, ?_, ?_, ?_⟩
  · simp [onLoad, h]
  · exact ⟨"GET ".data, (" failed: status " ++ toString res.status).data,
      by simp [String.data_append]⟩
  · exact ⟨"GET ".data ++ path.data ++ " failed: status ".data,
      by simp [String.data_append]⟩
  · cases hl : cfg.hasOnLog <;>
      simp [onLoad, h, hl, List.count_append, List.count_cons, List.count_nil]
  · simp [onLoad, h]

/-- Witness for C5 at a concrete 404. -/
theorem claim_C5_witness :
    (⟨404, "", none, []⟩ : ResponseModel).ok = false
    ∧ (onLoad {} "https://example.com/a.js"
        (.response ⟨404, "", none, []⟩)).result
      = .error (.httpStatus
          ("GET " ++ "https://example.com/a.js" ++ " failed: status "
            ++ toString (404 : Nat))) :=
  ⟨by decide,
   (claim_C5_http_failure {} "https://example.com/a.js" ⟨404, "", none, []⟩
      (by decide)).1⟩

/-- Claim C6: the redirect-ledger entry for a canonical path is
written exactly once, by a successful load, after the fetch has
completed (the `recorded` event follows `timerCleared`, which the
`finally` block runs once the awaited fetch has resolved); failed
loads write nothing; the recorded effective URL is the transport's
final URL, defaulting to the requested path when the transport
reports the empty string. -/
theorem claim_C6_ledger_update (cfg : PluginConfig) (path : String)
    (outcome : FetchOutcome) :
    (∀ res, outcome = .response res → res.ok = true →
      (onLoad cfg path outcome).ledgerUpdate
        = some (path, if res.url = "" then path else res.url)
      ∧ ∃ t, (onLoad cfg path outcome).trace
        = t ++ [.timerCleared,
            .recorded path (if res.url = "" then path else res.url)]
      ∧ (onLoad cfg path outcome).trace.count
          (.recorded path (if res.url = "" then path else res.url)) = 1)
    ∧ (∀ e, (onLoad cfg path outcome).result = .error e →
        (onLoad cfg path outcome).ledgerUpdate = none) := by
  constructor
  · rintro res rfl hok
    refine ⟨by simp [onLoad, hok], ?_⟩
    refine ⟨(if cfg.hasOnLog then [Event.logged ("Downloading: " ++ path)]
      else []) ++ [Event.timerSet, Event.fetchStarted path], ?_, ?_⟩
    · simp [onLoad, hok]
    · cases hl : cfg.hasOnLog <;>
        simp [onLoad, hok, hl, List.count_append, List.count_cons,
          List.count_nil]
  · intro e he
    cases outcome with
    | timeout => simp [onLoad]
    | networkError => simp [onLoad]
    | response res =>
      cases hok : res.ok with
      | true => simp [onLoad, hok] at he
      | false => simp [onLoad, hok]

/-- Witness for C6: a successful fetch of `https://cdn/pkg` served
from `https://cdn/pkg/index.js` records exactly that pair. -/
theorem claim_C6_witness :
    (onLoad {} "https://cdn/pkg"
      (.response ⟨200, "https://cdn/pkg/index.js", none, []⟩)).ledgerUpdate
      = some ("https://cdn/pkg", "https://cdn/pkg/index.js") := by
  have h := ((claim_C6_ledger_update {} "https://cdn/pkg"
      (.response ⟨200, "https://cdn/pkg/index.js", none, []⟩)).1
      ⟨200, "https://cdn/pkg/index.js", none, []⟩ rfl (by decide)).1
  rw [h]
  decide

/-- Claim C7: extension inference equals the spec's description —
take the last segment of the path-only component, require a dot at a
position other than 0 of that segment, lower-case the substring after
the last dot, and map it through exactly the fixed table; the
pathname of a URL excludes query and fragment, and unknown or absent
extensions yield nothing. -/
theorem claim_C7_extension_inference :
    (∀ pathname : String,
      loaderFromPathname pathname = loaderFromPathnameSpecL pathname.data)
    ∧ urlPathnameD "https://example.com/lib/a.ts?v=1#top" = "/lib/a.ts"
    ∧ loaderFromPathname "/a.js" = some .js
    ∧ loaderFromPathname "/a.mjs" = some .js
    ∧ loaderFromPathname "/a.cjs" = some .js
    ∧ loaderFromPathname "/a.ts" = some .ts
    ∧ loaderFromPathname "/a.mts" = some .ts
    ∧ loaderFromPathname "/a.cts" = some .ts
    ∧ loaderFromPathname "/a.jsx" = some .jsx
    ∧ loaderFromPathname "/a.tsx" = some .tsx
    ∧ loaderFromPathname "/a.json" = some .json
    ∧ loaderFromPathname "/a.css" = some .css
    ∧ loaderFromPathname "/a.txt" = some .text
    ∧ loaderFromPathname "/a.TS" = some .ts
    ∧ loaderFromPathname "/a.wasm" = none
    ∧ loaderFromPathname "/Makefile" = none
    ∧ loaderFromPathname "/dir.v1/file" = none
    ∧ loaderFromPathname "/.gitignore" = none :=
  ⟨fun p => loaderFromPathnameL_eq_spec p.data, by decide⟩

/-- Claim C8: content-type inference equals the spec's description —
strip parameters after `;`, trim and lower-case the media type, map
through exactly the fixed table, with unrecognized or absent types
yielding nothing; in particular
`application/typescript; charset=utf-8` yields `ts`. -/
theorem claim_C8_content_type_inference :
    (∀ ct, loaderFromContentType ct = loaderFromContentTypeSpec ct)
    ∧ loaderFromContentType (some "application/typescript; charset=utf-8")
        = some .ts
    ∧ loaderFromContentType (some "application/javascript") = some .js
    ∧ loaderFromContentType (some "text/javascript") = some .js
    ∧ loaderFromContentType (some "application/typescript") = some .ts
    ∧ loaderFromContentType (some "text/typescript") = some .ts
    ∧ loaderFromContentType (some "application/json") = some .json
    ∧ loaderFromContentType (some "text/json") = some .json
    ∧ loaderFromContentType (some "text/css") = some .css
    ∧ loaderFromContentType (some "text/plain") = some .text
    ∧ loaderFromContentType (some " Text/CSS ; charset=utf-8") = some .css
    ∧ loaderFromContentType (some "application/octet-stream") = none
    ∧ loaderFromContentType none = none :=
  ⟨loaderFromContentType_eq_spec, by decide⟩

/-- Claim C9: any import path matching the absolute http(s) filter
resolves to itself, tagged with the configured namespace, regardless
of importer context (the first resolve hook ignores the importer). -/
theorem claim_C9_absolute_url_identity (ns p : String)
    (_h : matchesHttpFilter p = true) :
    (onResolveHttp ns p).path = p ∧ (onResolveHttp ns p).ns = ns :=
  ⟨rfl, rfl⟩

/-- Witness for C9 at a concrete absolute URL. -/
theorem claim_C9_witness :
    matchesHttpFilter "https://example.com/a.js" = true
    ∧ (onResolveHttp defaultNs "https://example.com/a.js").path
        = "https://example.com/a.js" :=
  ⟨by decide,
   (claim_C9_absolute_url_identity defaultNs "https://example.com/a.js"
      (by decide)).1⟩

/-- Claim C10: when an onLog hook is configured, every invocation of
the load callback logs exactly one message, that message contains the
canonical path, and the log happens before the network request is
issued — on every outcome, including timeouts, network errors and
HTTP failures. -/
theorem claim_C10_onlog_once_before_fetch (cfg : PluginConfig)
    (path : String) (outcome : FetchOutcome) (h : cfg.hasOnLog = true) :
    (∃ t, (onLoad cfg path outcome).trace
        = .logged ("Downloading: " ++ path) :: .timerSet
            :: .fetchStarted path :: t
      ∧ ∀ m, Event.logged m ∉ t)
    ∧ ∃ pre post, ("Downloading: " ++ path).data
        = pre ++ path.data ++ post := by
  constructor
  · cases outcome with
    | timeout =>
      refine ⟨[.aborted, .timerCleared], by simp [onLoad, h], ?_⟩
      intro m hm
      simp at hm
    | networkError =>
      refine ⟨[.timerCleared], by simp [onLoad, h], ?_⟩
      intro m hm
      simp at hm
    | response res =>
      cases hok : res.ok with
      | true =>
        refine ⟨[.timerCleared, .recorded path
          (if res.url = "" then path else res.url)],
          by simp [onLoad, h, hok], ?_⟩
        intro m hm
        simp at hm
      | false =>
        refine ⟨[.timerCleared], by simp [onLoad, h, hok], ?_⟩
        intro m hm
        simp at hm
  · exact ⟨"Downloading: ".data, [], by simp [String.data_append]⟩

/-- Witness for C10 at a concrete network error. -/
theorem claim_C10_witness :
    ({ hasOnLog := true } : PluginConfig).hasOnLog = true
    ∧ ((∃ t, (onLoad { hasOnLog := true } "p" .networkError).trace
        = .logged ("Downloading: " ++ "p") :: .timerSet
            :: .fetchStarted "p" :: t
      ∧ ∀ m, Event.logged m ∉ t)
    ∧ ∃ pre post, ("Downloading: " ++ "p").data
        = pre ++ "p".data ++ post) :=
  ⟨rfl, claim_C10_onlog_once_before_fetch { hasOnLog := true } "p"
    .networkError rfl⟩

end HttpImport
